import Mathlib

/-!
Shallow embedding of `src/data_structures/ds_array/static_array.rs` from the
numeru repository: a strided, row-major N-dimensional array over a flat buffer.

Modelling conventions:
* `Vec<f32>` is modelled as `List α` for an arbitrary element type `α`
  (the code never computes with the elements, it only stores, copies and
  compares them), `Vec<usize>` as `List Nat`.
* Every `panic!` site is modelled as a typed error (`Err`), named after the
  failure taxonomy of the specification (section 7).  Rust's built-in
  out-of-range panics on `v[i]` / `&v[a..b]` (which are not part of that
  taxonomy) are modelled by the separate constructor `Err.slicePanic`.
* Methods that mutate `&mut self` (`reshape`, `IndexMut::index_mut`) are
  modelled by explicit state passing: they return the new state paired with
  `Option Err`; a `some` error means the Rust code panicked before any field
  was written, so the returned state is the unchanged input.
* Fallible read-only methods return `Except Err _`.
-/

namespace Numeru

/-- Typed rendering of the `panic!` sites of `static_array.rs`, named after the
failure taxonomy of the specification:
* `capacityMismatch` — `_check_shape_capacity_match` ("the given input array and
  shape does not match in capacity") and the inline check in `reshape` ("new
  shape must have the same number of elements as the old shape"); both fire
  exactly when `product(shape) != capacity`.
* `dimensionMismatch` — "number of indices does not match the shape dimensions".
* `indexOutOfBounds` — "index out of bounds for dimension i: v >= bound", and
  the `get_subarray` prefix-longer-than-rank panic, which the taxonomy also
  classifies as IndexOutOfBounds.
* `useScalarAccessInstead` — `get_subarray` with a prefix of length equal to
  the rank.
* `invalidRange` — "the start index is greater than the end index".
* `slicePanic` — a Rust builtin index/slice panic (`self.data[i]`,
  `&self.data[a..b]`), not part of the specification's taxonomy.  -/
inductive Err where
  | capacityMismatch
  | dimensionMismatch
  | indexOutOfBounds
  | useScalarAccessInstead
  | invalidRange
  | slicePanic
  deriving DecidableEq

/-- The `StaticArray` struct: `capacity: usize`, `data: Vec<f32>`,
`shape: Vec<usize>`.  -/
structure StaticArray (α : Type) where
  capacity : Nat
  data : List α
  shape : List Nat
  deriving DecidableEq

/-- The representation invariant stated in section 3 of the specification:
`capacity == product(shape)` and `data.length == capacity`. -/
def Wf {α : Type} (a : StaticArray α) : Prop :=
  a.capacity = a.shape.prod ∧ a.data.length = a.capacity

instance {α : Type} (a : StaticArray α) : Decidable (Wf a) :=
  inferInstanceAs (Decidable (_ ∧ _))

/-- `_new_array_with_value`: `capacity = shape.iter().product()`,
`data = vec![value; capacity]`. -/
def _new_array_with_value {α : Type} (value : α) (shape : List Nat) : StaticArray α :=
  ⟨shape.prod, List.replicate shape.prod value, shape⟩

/-- `_check_shape_capacity_match`: panics iff `shape.iter().product() != capacity`. -/
def _check_shape_capacity_match (capacity : Nat) (shape : List Nat) : Except Err Bool :=
  if shape.prod ≠ capacity then .error .capacityMismatch else .ok true

/-- The loop of `_check_index_within_bounds`: for each position `i`,
panic iff `index[i] >= shape[i]`.  The third equation corresponds to the Rust
`self.shape[i]` vector-index panic, unreachable because the caller has already
checked the two lengths are equal. -/
def checkBoundsAux : List Nat → List Nat → Except Err Bool
  | [], _ => .ok true
  | _ :: _, [] => .error .slicePanic
  | i :: is, s :: ss => if s ≤ i then .error .indexOutOfBounds else checkBoundsAux is ss

/-- `_check_index_within_bounds`: first the length-vs-rank check (panic
`DimensionMismatch`), then the per-dimension bound check. -/
def _check_index_within_bounds {α : Type} (a : StaticArray α) (access_index : List Nat) :
    Except Err Bool :=
  if access_index.length ≠ a.shape.length then .error .dimensionMismatch
  else checkBoundsAux access_index a.shape

/-- `_calculate_strides` (a method reading `self.shape`, modelled as a function
of the shape): `strides = vec![1; len]`, then for `i` from `len - 2` down to
`0`, `strides[i] = strides[i + 1] * shape[i + 1]`.  Written as structural
recursion: the strides of the tail shape are exactly `strides[1..]` of the
whole (the recurrence only looks at positions `≥ i + 1`), and
`strides[0] = strides[1] * shape[1]`.  For the empty shape the Rust loop bound
`shape.len() - 1` underflows (a panic); the claims only use nonempty shapes. -/
def _calculate_strides : List Nat → List Nat
  | [] => []
  | [_] => [1]
  | _ :: d :: rest =>
      ((_calculate_strides (d :: rest)).headD 1 * d) :: _calculate_strides (d :: rest)

/-- The loop body of `_calculate_flat_index`, walking the reversed index and
reversed shape with the running `stride` accumulator:
`flat_index += index * stride; stride *= shape[shape.len() - 1 - i]`.
The third equation is the point where `shape.len() - 1 - i` underflows in the
source (a panic when the index is longer than the shape); no claim reaches it. -/
def flatIndexAux : List Nat → List Nat → Nat → Nat
  | [], _, _ => 0
  | i :: is, s :: ss, stride => i * stride + flatIndexAux is ss (stride * s)
  | i :: _, [], stride => i * stride

/-- `_calculate_flat_index` (a method reading `self.shape`, modelled as a
function of the shape): iterates over `indices.iter().rev().enumerate()`,
pairing each reversed index entry with the shape entries from the innermost
outwards. -/
def _calculate_flat_index (shape indices : List Nat) : Nat :=
  flatIndexAux indices.reverse shape.reverse 1

/-- `_check_end_index_greater_than_start_index`: compares the two flat offsets
(computed before any bounds check) and panics `InvalidRange` when the start
offset exceeds the end offset. -/
def _check_end_index_greater_than_start_index (shape start_index end_index : List Nat) :
    Except Err Bool :=
  if _calculate_flat_index shape start_index ≤ _calculate_flat_index shape end_index then
    .ok true
  else .error .invalidRange

/-- The `access_index.iter().zip(&strides).map(|(i, s)| i * s).sum()` expression
inside `get_subarray`. -/
def zipStrideSum (idx strides : List Nat) : Nat :=
  ((idx.zip strides).map fun p => p.1 * p.2).sum

/-- `new_zeros`. -/
def new_zeros {α : Type} [Zero α] (shape : List Nat) : StaticArray α :=
  _new_array_with_value 0 shape

/-- `new_ones`. -/
def new_ones {α : Type} [One α] (shape : List Nat) : StaticArray α :=
  _new_array_with_value 1 shape

/-- `new_fill`. -/
def new_fill {α : Type} (shape : List Nat) (fill_value : α) : StaticArray α :=
  _new_array_with_value fill_value shape

/-- `new_from_array`: `capacity = values.len()`, default shape `[capacity]`,
then `_check_shape_capacity_match`; on success the input vector is moved into
`data`. -/
def new_from_array {α : Type} (values : List α) (shape : Option (List Nat)) :
    Except Err (StaticArray α) :=
  let capacity := values.length
  let shape := shape.getD [capacity]
  match _check_shape_capacity_match capacity shape with
  | .error e => .error e
  | .ok _ => .ok ⟨capacity, values, shape⟩

/-- `reshape(&mut self, new_shape)`: panics `CapacityMismatch` when
`new_shape.iter().product() != self.capacity` (before any field is written),
otherwise sets `self.shape = new_shape`. -/
def reshape {α : Type} (a : StaticArray α) (new_shape : List Nat) :
    StaticArray α × Option Err :=
  let new_capacity := new_shape.prod
  if new_capacity ≠ a.capacity then (a, some .capacityMismatch)
  else ({ a with shape := new_shape }, none)

/-- `get_element_at`: bounds check, then `self.data[flat_index]`.  The `none`
branch is the Rust vector-index panic, unreachable on well-formed arrays. -/
def get_element_at {α : Type} (a : StaticArray α) (access_index : List Nat) : Except Err α :=
  match _check_index_within_bounds a access_index with
  | .error e => .error e
  | .ok _ =>
    let flat_index := _calculate_flat_index a.shape access_index
    match a.data.get? flat_index with
    | some v => .ok v
    | none => .error .slicePanic

/-- `get_elements_slice`: the `InvalidRange` comparison runs first, then both
indices are bounds-checked, then `&self.data[start..end]` is returned.  The
`if ret = false` branch transcribes the dead `if !ret_check_indices { panic }`
in the source.  The final guard is the Rust slice panic `end > data.len()`
(the other slice panic condition, `start > end`, is excluded by the first
check). -/
def get_elements_slice {α : Type} (a : StaticArray α)
    (access_index_start access_index_end : List Nat) : Except Err (List α) :=
  match _check_end_index_greater_than_start_index a.shape access_index_start access_index_end with
  | .error e => .error e
  | .ok ret =>
    if ret = false then .error .invalidRange
    else match _check_index_within_bounds a access_index_start with
    | .error e => .error e
    | .ok _ =>
      match _check_index_within_bounds a access_index_end with
      | .error e => .error e
      | .ok _ =>
        let start_index := _calculate_flat_index a.shape access_index_start
        let end_index := _calculate_flat_index a.shape access_index_end
        if end_index ≤ a.data.length then
          .ok ((a.data.drop start_index).take (end_index - start_index))
        else .error .slicePanic

/-- `get_subarray`: matches on `access_index.len().cmp(&self.shape.len())`.
`Greater` and `Equal` panic; `Less` takes the suffix shape, its product as the
capacity, the zip-with-strides offset, and copies
`self.data[start .. start + ret_capacity]` (the final guard is the Rust slice
panic when that range exceeds the buffer; the prefix components are never
bounds-checked). -/
def get_subarray {α : Type} (a : StaticArray α) (access_index : List Nat) :
    Except Err (StaticArray α) :=
  if a.shape.length < access_index.length then .error .indexOutOfBounds
  else if access_index.length = a.shape.length then .error .useScalarAccessInstead
  else
    let ret_shape := a.shape.drop access_index.length
    let ret_capacity := ret_shape.prod
    let strides := _calculate_strides a.shape
    let start_index := zipStrideSum access_index strides
    if start_index + ret_capacity ≤ a.data.length then
      .ok ⟨ret_capacity, (a.data.drop start_index).take ret_capacity, ret_shape⟩
    else .error .slicePanic

/-- `get_view`: `_check_shape_capacity_match(self.capacity, new_shape)`, then a
new instance with `data: self.data.clone()` under `new_shape`; `self` is taken
by shared reference, so the original is untouched by construction. -/
def get_view {α : Type} (a : StaticArray α) (new_shape : List Nat) :
    Except Err (StaticArray α) :=
  let new_capacity := new_shape.prod
  match _check_shape_capacity_match a.capacity new_shape with
  | .error e => .error e
  | .ok _ => .ok ⟨new_capacity, a.data, new_shape⟩

/-- `IndexMut::index_mut` followed by the assignment `array[&idx] = v`: bounds
check, then write through `&mut self.data[flat_index]`.  The `slicePanic`
branch is the Rust vector-index panic, unreachable on well-formed arrays;
either panic leaves the state unchanged. -/
def index_mut_set {α : Type} (a : StaticArray α) (access_index : List Nat) (v : α) :
    StaticArray α × Option Err :=
  match _check_index_within_bounds a access_index with
  | .error e => (a, some e)
  | .ok _ =>
    let flat_index := _calculate_flat_index a.shape access_index
    if flat_index < a.data.length then ({ a with data := a.data.set flat_index v }, none)
    else (a, some .slicePanic)

/-- Componentwise bound check used to state claim hypotheses: every component
of `is` is strictly below the corresponding entry of `ss`, and `is` is no
longer than `ss`. -/
def idxLt : List Nat → List Nat → Bool
  | [], _ => true
  | _ :: _, [] => false
  | i :: is, s :: ss => decide (i < s) && idxLt is ss

/-! ### Helper lemmas -/

/-- Suffix-product characterization used in the proofs: entry `i` of the
strides vector is the product of `shape[(i+1)..]`. -/
def stridesSpec : List Nat → List Nat
  | [] => []
  | _ :: rest => rest.prod :: stridesSpec rest

theorem calc_strides_eq : ∀ l : List Nat, _calculate_strides l = stridesSpec l
  | [] => rfl
  | [_] => rfl
  | a :: d :: rest => by
    have ih := calc_strides_eq (d :: rest)
    show ((_calculate_strides (d :: rest)).headD 1 * d) :: _calculate_strides (d :: rest)
        = (d :: rest).prod :: stridesSpec (d :: rest)
    rw [ih]
    show (rest.prod * d) :: stridesSpec (d :: rest) = (d * rest.prod) :: stridesSpec (d :: rest)
    rw [Nat.mul_comm]

theorem stridesSpec_length : ∀ l : List Nat, (stridesSpec l).length = l.length
  | [] => rfl
  | _ :: rest => by simp [stridesSpec, stridesSpec_length rest]

theorem stridesSpec_getD :
    ∀ (l : List Nat) (i : Nat), i < l.length →
      (stridesSpec l).getD i 0 = (l.drop (i + 1)).prod
  | _ :: _, 0, _ => rfl
  | _ :: rest, i + 1, h => by
    have := stridesSpec_getD rest i (by simpa using h)
    simpa [stridesSpec] using this

theorem zipStrideSum_nil (l : List Nat) : zipStrideSum [] l = 0 := rfl

theorem zipStrideSum_cons (i x : Nat) (is xs : List Nat) :
    zipStrideSum (i :: is) (x :: xs) = i * x + zipStrideSum is xs := by
  simp [zipStrideSum]

/-- Key range bound: a componentwise in-bounds prefix index, summed against the
suffix-product strides, plus the capacity of the remaining dimensions, never
exceeds the total capacity. -/
theorem offset_add_capacity_le :
    ∀ (is ss : List Nat), is.length ≤ ss.length → idxLt is ss = true →
      zipStrideSum is (stridesSpec ss) + (ss.drop is.length).prod ≤ ss.prod
  | [], ss, _, _ => by simp [zipStrideSum_nil]
  | i :: is, [], hlen, _ => by simp at hlen
  | i :: is, s :: ss, hlen, hb => by
    have hb1 : i < s := by
      have := hb
      simp [idxLt] at this
      exact this.1
    have hb2 : idxLt is ss = true := by
      have := hb
      simp [idxLt] at this
      exact this.2
    have ih := offset_add_capacity_le is ss (by simpa using hlen) hb2
    show zipStrideSum (i :: is) (ss.prod :: stridesSpec ss)
        + ((s :: ss).drop (is.length + 1)).prod ≤ (s :: ss).prod
    rw [zipStrideSum_cons, List.drop_succ_cons, List.prod_cons]
    calc i * ss.prod + zipStrideSum is (stridesSpec ss) + (ss.drop is.length).prod
        = i * ss.prod + (zipStrideSum is (stridesSpec ss) + (ss.drop is.length).prod) := by
          ring
      _ ≤ i * ss.prod + ss.prod := Nat.add_le_add_left ih _
      _ = (i + 1) * ss.prod := by ring
      _ ≤ s * ss.prod := Nat.mul_le_mul_right _ hb1

/-- `flatIndexAux` is linear in its running stride accumulator. -/
def revFold : List Nat → List Nat → Nat
  | [], _ => 0
  | i :: _, [] => i
  | i :: is, s :: ss => i + s * revFold is ss

theorem flatIndexAux_eq :
    ∀ (is ss : List Nat) (st : Nat), flatIndexAux is ss st = st * revFold is ss
  | [], _, st => by simp [flatIndexAux, revFold]
  | i :: is, [], st => by simp [flatIndexAux, revFold, Nat.mul_comm]
  | i :: is, s :: ss, st => by
    show i * st + flatIndexAux is ss (st * s) = st * revFold (i :: is) (s :: ss)
    rw [flatIndexAux_eq is ss (st * s)]
    show i * st + st * s * revFold is ss = st * (i + s * revFold is ss)
    ring

theorem revFold_append :
    ∀ (as bs : List Nat), as.length = bs.length → ∀ i s : Nat,
      revFold (as ++ [i]) (bs ++ [s]) = revFold as bs + i * bs.prod
  | [], [], _, i, s => by simp [revFold]
  | [], _ :: _, h, _, _ => by simp at h
  | _ :: _, [], h, _, _ => by simp at h
  | a :: as, b :: bs, h, i, s => by
    have ih := revFold_append as bs (by simpa using h) i s
    show a + b * revFold (as ++ [i]) (bs ++ [s])
        = (a + b * revFold as bs) + i * (b :: bs).prod
    rw [ih, List.prod_cons]
    ring

/-- The inline reverse-iteration flat-index mapper agrees with the zip-sum
against the suffix-product strides, for indices of full rank. -/
theorem flat_index_eq_zipsum :
    ∀ (is ss : List Nat), is.length = ss.length →
      _calculate_flat_index ss is = zipStrideSum is (stridesSpec ss)
  | [], ss, h => by
    simp [_calculate_flat_index, flatIndexAux, zipStrideSum_nil]
  | i :: is, [], h => by simp at h
  | i :: is, s :: ss, h => by
    have hlen : is.length = ss.length := by simpa using h
    have ih := flat_index_eq_zipsum is ss hlen
    show flatIndexAux (i :: is).reverse (s :: ss).reverse 1
        = zipStrideSum (i :: is) (ss.prod :: stridesSpec ss)
    rw [flatIndexAux_eq, Nat.one_mul, List.reverse_cons, List.reverse_cons,
      revFold_append is.reverse ss.reverse (by simpa using hlen) i s]
    have hflat : _calculate_flat_index ss is = revFold is.reverse ss.reverse := by
      show flatIndexAux is.reverse ss.reverse 1 = _
      rw [flatIndexAux_eq, Nat.one_mul]
    rw [← hflat, ih, List.prod_reverse, zipStrideSum_cons]
    ring

/-- A full-rank, componentwise in-bounds multi-index has a flat offset strictly
below the shape's capacity. -/
theorem flat_index_lt (is ss : List Nat) (hlen : is.length = ss.length)
    (hb : idxLt is ss = true) : _calculate_flat_index ss is + 1 ≤ ss.prod := by
  have h := offset_add_capacity_le is ss (Nat.le_of_eq hlen) hb
  rw [hlen, List.drop_length] at h
  simpa [flat_index_eq_zipsum is ss hlen] using h

/-- `idxLt` means exactly what the claims say: every component is strictly
below the corresponding shape entry. -/
theorem idxLt_iff :
    ∀ (is ss : List Nat), is.length ≤ ss.length →
      (idxLt is ss = true ↔ ∀ d, d < is.length → is.getD d 0 < ss.getD d 0)
  | [], ss, _ => by simp [idxLt]
  | i :: is, [], hlen => by simp at hlen
  | i :: is, s :: ss, hlen => by
    have ih := idxLt_iff is ss (by simpa using hlen)
    constructor
    · intro hb d hd
      simp [idxLt] at hb
      match d with
      | 0 => exact hb.1
      | d + 1 => exact ih.mp hb.2 d (by simpa using hd)
    · intro h
      simp [idxLt]
      refine ⟨h 0 (by simp), ih.mpr ?_⟩
      intro d hd
      exact h (d + 1) (by simpa using hd)

/-- Under equal lengths, the bounds-check loop passes iff `idxLt` holds, and
otherwise panics `IndexOutOfBounds`. -/
theorem checkBoundsAux_eq :
    ∀ (is ss : List Nat), is.length = ss.length →
      checkBoundsAux is ss =
        if idxLt is ss then Except.ok true else Except.error Err.indexOutOfBounds
  | [], [], _ => rfl
  | [], _ :: _, h => by simp at h
  | _ :: _, [], h => by simp at h
  | i :: is, s :: ss, h => by
    have ih := checkBoundsAux_eq is ss (by simpa using h)
    show (if s ≤ i then Except.error Err.indexOutOfBounds else checkBoundsAux is ss) = _
    by_cases hsi : s ≤ i
    · have : idxLt (i :: is) (s :: ss) = false := by
        simp [idxLt]
        intro hlt
        omega
      simp [hsi, this]
    · have hlt : i < s := Nat.lt_of_not_le hsi
      have : idxLt (i :: is) (s :: ss) = idxLt is ss := by
        simp [idxLt, hlt]
      simp [hsi, this, ih]

theorem getD_of_lt {α : Type} (l : List α) (n : Nat) (d : α) (h : n < l.length) :
    l.getD n d = l[n] := by
  simp [List.getD_eq_getElem?_getD, List.getElem?_eq_getElem h]

/-! ### Claim theorems -/

/-- Claim C3: for every (nonempty) shape vector, the derived strides vector has
the same length as the shape, its last entry is 1, and each entry satisfies
`strides[i] = strides[i+1] * shape[i+1]`.  (For the empty shape the source
loop bound `shape.len() - 1` underflows and the call panics, so the property —
which presupposes a last entry — is stated for nonempty shapes.) -/
theorem strides_shape_recurrence (shape : List Nat) (h : shape ≠ []) :
    (_calculate_strides shape).length = shape.length ∧
    (_calculate_strides shape).getD (shape.length - 1) 0 = 1 ∧
    ∀ i, i + 1 < shape.length →
      (_calculate_strides shape).getD i 0 =
        (_calculate_strides shape).getD (i + 1) 0 * shape.getD (i + 1) 0 := by
  have hpos : 0 < shape.length := by
    cases shape with
    | nil => exact absurd rfl h
    | cons a l => simp
  rw [calc_strides_eq]
  refine ⟨stridesSpec_length shape, ?_, ?_⟩
  · rw [stridesSpec_getD shape _ (by omega)]
    have hlen : shape.length - 1 + 1 = shape.length := by omega
    rw [hlen, List.drop_length]
    rfl
  · intro i hi
    rw [stridesSpec_getD shape i (by omega), stridesSpec_getD shape (i + 1) hi,
      getD_of_lt shape (i + 1) 0 hi]
    rw [List.drop_eq_getElem_cons hi, List.prod_cons]
    ring

/-- Witness for C3 at the concrete shape `[2, 3, 5]` (strides `[15, 5, 1]`). -/
theorem strides_shape_recurrence_witness :
    ([2, 3, 5] : List Nat) ≠ [] ∧
    _calculate_strides [2, 3, 5] = [15, 5, 1] ∧
    (_calculate_strides [2, 3, 5]).length = 3 ∧
    (_calculate_strides [2, 3, 5]).getD 2 0 = 1 ∧
    (_calculate_strides [2, 3, 5]).getD 0 0 =
      (_calculate_strides [2, 3, 5]).getD 1 0 * ([2, 3, 5] : List Nat).getD 1 0 := by
  have h := strides_shape_recurrence [2, 3, 5] (by decide)
  exact ⟨by decide, by decide, h.1, h.2.1, h.2.2 0 (by decide)⟩

/-- Claim C4: for a multi-index of length equal to the rank, the flat offset
computed by the inline reverse-iteration mapper `_calculate_flat_index` equals
`sum(idx[d] * strides[d] for d in 0..rank)` with strides from the separate
stride calculator `_calculate_strides`. -/
theorem flat_index_refines_strides (shape idx : List Nat)
    (h : idx.length = shape.length) :
    _calculate_flat_index shape idx = zipStrideSum idx (_calculate_strides shape) := by
  rw [calc_strides_eq]
  exact flat_index_eq_zipsum idx shape h

/-- Witness for C4 at shape `[2, 3]`, index `[1, 2]` (both sides are `5`). -/
theorem flat_index_refines_strides_witness :
    ([1, 2] : List Nat).length = ([2, 3] : List Nat).length ∧
    _calculate_flat_index [2, 3] [1, 2] = zipStrideSum [1, 2] (_calculate_strides [2, 3]) ∧
    _calculate_flat_index [2, 3] [1, 2] = 5 := by
  exact ⟨by decide, flat_index_refines_strides [2, 3] [1, 2] (by decide), by decide⟩

/-- Claim C2: `reshape(new_shape)` sets `shape` to `new_shape` iff
`product(new_shape)` equals the capacity, leaving `data` and `capacity`
untouched; otherwise it fails with `CapacityMismatch` and the array (shape,
data and capacity) is returned exactly as it was. -/
theorem reshape_spec {α : Type} (a : StaticArray α) (new_shape : List Nat) :
    (new_shape.prod = a.capacity →
      reshape a new_shape = (⟨a.capacity, a.data, new_shape⟩, none)) ∧
    (new_shape.prod ≠ a.capacity →
      reshape a new_shape = (a, some Err.capacityMismatch)) := by
  constructor
  · intro h
    simp [reshape, h]
  · intro h
    simp [reshape, h]

/-- Witness for C2: `zeros([2,2]).reshape([4])` succeeds with shape `[4]` and
the same four zero elements; `reshape([3])` on the 4-element array fails with
`CapacityMismatch` and returns the array unchanged. -/
theorem reshape_spec_witness :
    ([4] : List Nat).prod = (new_zeros [2, 2] : StaticArray Nat).capacity ∧
    reshape (new_zeros [2, 2] : StaticArray Nat) [4] = (⟨4, [0, 0, 0, 0], [4]⟩, none) ∧
    ([3] : List Nat).prod ≠ (new_zeros [2, 2] : StaticArray Nat).capacity ∧
    reshape (new_zeros [2, 2] : StaticArray Nat) [3] =
      (new_zeros [2, 2], some Err.capacityMismatch) := by
  refine ⟨by decide, ?_, by decide, ?_⟩
  · exact ((reshape_spec (new_zeros [2, 2] : StaticArray Nat) [4]).1 (by decide)).trans rfl
  · exact (reshape_spec (new_zeros [2, 2] : StaticArray Nat) [3]).2 (by decide)

/-- Claim C8: `get_view(new_shape)` has the same capacity-match precondition
and failure mode as `reshape` (both fail with `CapacityMismatch` when
`product(new_shape) ≠ capacity`), and on success returns a new instance
holding the same data under `new_shape`; the original array is taken by shared
reference and is untouched by construction. -/
theorem get_view_spec {α : Type} (a : StaticArray α) (new_shape : List Nat) :
    (new_shape.prod ≠ a.capacity →
      get_view a new_shape = .error Err.capacityMismatch ∧
      (reshape a new_shape).2 = some Err.capacityMismatch) ∧
    (new_shape.prod = a.capacity →
      get_view a new_shape = .ok ⟨new_shape.prod, a.data, new_shape⟩) := by
  constructor
  · intro h
    constructor
    · simp [get_view, _check_shape_capacity_match, h]
    · simp [reshape, h]
  · intro h
    simp [get_view, _check_shape_capacity_match, h]

/-- Witness for C8 on the `[2,3]` array `[1..6]`: `get_view([3,2])` succeeds
with the same data; `get_view([4])` and `reshape([4])` both fail with
`CapacityMismatch`. -/
theorem get_view_spec_witness :
    ([3, 2] : List Nat).prod = (⟨6, [1, 2, 3, 4, 5, 6], [2, 3]⟩ : StaticArray Nat).capacity ∧
    get_view (⟨6, [1, 2, 3, 4, 5, 6], [2, 3]⟩ : StaticArray Nat) [3, 2] =
      .ok ⟨6, [1, 2, 3, 4, 5, 6], [3, 2]⟩ ∧
    ([4] : List Nat).prod ≠ (⟨6, [1, 2, 3, 4, 5, 6], [2, 3]⟩ : StaticArray Nat).capacity ∧
    get_view (⟨6, [1, 2, 3, 4, 5, 6], [2, 3]⟩ : StaticArray Nat) [4] =
      .error Err.capacityMismatch ∧
    (reshape (⟨6, [1, 2, 3, 4, 5, 6], [2, 3]⟩ : StaticArray Nat) [4]).2 =
      some Err.capacityMismatch := by
  have hok := (get_view_spec (⟨6, [1, 2, 3, 4, 5, 6], [2, 3]⟩ : StaticArray Nat) [3, 2]).2
    (by decide)
  have herr := (get_view_spec (⟨6, [1, 2, 3, 4, 5, 6], [2, 3]⟩ : StaticArray Nat) [4]).1
    (by decide)
  exact ⟨by decide, hok.trans rfl, by decide, herr.1, herr.2⟩

theorem check_index_within_bounds_eq {α : Type} (a : StaticArray α) (idx : List Nat) :
    _check_index_within_bounds a idx =
      if idx.length ≠ a.shape.length then Except.error Err.dimensionMismatch
      else if idxLt idx a.shape then Except.ok true
      else Except.error Err.indexOutOfBounds := by
  unfold _check_index_within_bounds
  by_cases h : idx.length = a.shape.length
  · simp [h, checkBoundsAux_eq idx a.shape h]
  · simp [h]

/-- The `2x2x2` example array of the specification, data `[1..8]`. -/
def ex222 : StaticArray Nat := ⟨8, [1, 2, 3, 4, 5, 6, 7, 8], [2, 2, 2]⟩

/-- The `2x3` example array of the source's tests, data `[1..6]`. -/
def exArr23 : StaticArray Nat := ⟨6, [1, 2, 3, 4, 5, 6], [2, 3]⟩

/-- Claim C1: for a prefix index of length `0 < k < rank` with components
within the shape bounds, `get_subarray` returns a new array of rank
`rank - k`, shape `shape[k..]`, capacity `product(shape[k..])`, and data a
copy of `data[offset .. offset + capacity]` with
`offset = sum(prefix[d] * strides[d])` under the original shape's strides; a
prefix of length equal to the rank fails with `UseScalarAccessInstead` and a
longer prefix fails with `IndexOutOfBounds`. -/
theorem get_subarray_spec {α : Type} (a : StaticArray α) (idx : List Nat) (hWF : Wf a) :
    (0 < idx.length → idx.length < a.shape.length → idxLt idx a.shape = true →
      get_subarray a idx =
        .ok ⟨(a.shape.drop idx.length).prod,
          (a.data.drop (zipStrideSum idx (_calculate_strides a.shape))).take
            ((a.shape.drop idx.length).prod),
          a.shape.drop idx.length⟩ ∧
      (a.shape.drop idx.length).length = a.shape.length - idx.length) ∧
    (idx.length = a.shape.length →
      get_subarray a idx = .error Err.useScalarAccessInstead) ∧
    (a.shape.length < idx.length → get_subarray a idx = .error Err.indexOutOfBounds) := by
  refine ⟨?_, ?_, ?_⟩
  · intro _ hr hb
    have hdlen : a.data.length = a.shape.prod := by rw [hWF.2, hWF.1]
    have hle : zipStrideSum idx (_calculate_strides a.shape)
        + (a.shape.drop idx.length).prod ≤ a.data.length := by
      rw [calc_strides_eq, hdlen]
      exact offset_add_capacity_le idx a.shape (Nat.le_of_lt hr) hb
    have h1 : ¬ a.shape.length < idx.length := by omega
    have h2 : ¬ idx.length = a.shape.length := by omega
    exact ⟨by simp [get_subarray, h1, h2, hle], by simp⟩
  · intro h
    have h1 : ¬ a.shape.length < idx.length := by omega
    simp [get_subarray, h1, h]
  · intro h
    simp [get_subarray, h]

/-- Witness for C1: the specification's `[2,2,2]` examples with data `[1..8]`,
plus the two failure modes. -/
theorem get_subarray_spec_witness :
    Wf ex222 ∧
    get_subarray ex222 [1] = .ok ⟨4, [5, 6, 7, 8], [2, 2]⟩ ∧
    get_subarray ex222 [0, 0] = .ok ⟨2, [1, 2], [2]⟩ ∧
    get_subarray ex222 [1, 1] = .ok ⟨2, [7, 8], [2]⟩ ∧
    get_subarray ex222 [1, 1, 1] = .error Err.useScalarAccessInstead ∧
    get_subarray ex222 [0, 0, 0, 0] = .error Err.indexOutOfBounds := by
  refine ⟨by decide, ?_, ?_, ?_, ?_, ?_⟩
  · exact (((get_subarray_spec ex222 [1] (by decide)).1
      (by decide) (by decide) (by decide)).1).trans rfl
  · exact (((get_subarray_spec ex222 [0, 0] (by decide)).1
      (by decide) (by decide) (by decide)).1).trans rfl
  · exact (((get_subarray_spec ex222 [1, 1] (by decide)).1
      (by decide) (by decide) (by decide)).1).trans rfl
  · exact (get_subarray_spec ex222 [1, 1, 1] (by decide)).2.1 (by decide)
  · exact (get_subarray_spec ex222 [0, 0, 0, 0] (by decide)).2.2 (by decide)

/-- Evaluation lemma for `get_element_at` in terms of the decomposed checks. -/
theorem get_element_at_eq {α : Type} (a : StaticArray α) (idx : List Nat) :
    get_element_at a idx =
      if idx.length ≠ a.shape.length then Except.error Err.dimensionMismatch
      else if idxLt idx a.shape then
        match a.data.get? (_calculate_flat_index a.shape idx) with
        | some v => Except.ok v
        | none => Except.error Err.slicePanic
      else Except.error Err.indexOutOfBounds := by
  unfold get_element_at
  rw [check_index_within_bounds_eq]
  by_cases hlen : idx.length = a.shape.length
  · by_cases hb : idxLt idx a.shape = true
    · simp [hlen, hb]
    · simp [hlen, hb]
  · simp [hlen]

/-- Claim C5: `get` fails with `DimensionMismatch` iff the index length
differs from the rank; it fails with `IndexOutOfBounds` iff the length equals
the rank and some component reaches its shape bound; otherwise it returns the
data-buffer element at the flat offset of the index. -/
theorem get_element_at_spec {α : Type} (a : StaticArray α) (idx : List Nat) (hWF : Wf a) :
    (get_element_at a idx = .error Err.dimensionMismatch ↔
      idx.length ≠ a.shape.length) ∧
    (get_element_at a idx = .error Err.indexOutOfBounds ↔
      idx.length = a.shape.length ∧ idxLt idx a.shape = false) ∧
    (idx.length = a.shape.length → idxLt idx a.shape = true →
      ∃ h : _calculate_flat_index a.shape idx < a.data.length,
        get_element_at a idx = .ok (a.data.get ⟨_calculate_flat_index a.shape idx, h⟩)) := by
  rw [get_element_at_eq]
  by_cases hlen : idx.length = a.shape.length
  · by_cases hb : idxLt idx a.shape = true
    · have hdlen : a.data.length = a.shape.prod := by rw [hWF.2, hWF.1]
      have hflat : _calculate_flat_index a.shape idx + 1 ≤ a.shape.prod :=
        flat_index_lt idx a.shape hlen hb
      have hlt : _calculate_flat_index a.shape idx < a.data.length := by omega
      rw [List.get?_eq_get hlt]
      refine ⟨by simp [hlen, hb], by simp [hlen, hb], ?_⟩
      intro _ _
      exact ⟨hlt, by simp [hlen, hb]⟩
    · have hb' : idxLt idx a.shape = false := by
        cases hx : idxLt idx a.shape with
        | true => exact absurd hx hb
        | false => rfl
      refine ⟨by simp [hlen, hb'], by simp [hlen, hb'], ?_⟩
      intro _ hx
      exact absurd hx hb
  · refine ⟨by simp [hlen], by simp [hlen], ?_⟩
    intro hx _
    exact absurd hx hlen

/-- Witness for C5 on the `[2,3]` array `[1..6]`: a successful read, a
wrong-length index, and an out-of-bounds component. -/
theorem get_element_at_spec_witness :
    Wf exArr23 ∧
    get_element_at exArr23 [1, 2] = .ok 6 ∧
    get_element_at exArr23 [1] = .error Err.dimensionMismatch ∧
    get_element_at exArr23 [1, 3] = .error Err.indexOutOfBounds := by
  have h1 := get_element_at_spec exArr23 [1, 2] (by decide)
  have h2 := get_element_at_spec exArr23 [1] (by decide)
  have h3 := get_element_at_spec exArr23 [1, 3] (by decide)
  refine ⟨by decide, ?_, ?_, ?_⟩
  · obtain ⟨_, heq⟩ := h1.2.2 (by decide) (by decide)
    exact heq.trans rfl
  · exact h2.1.mpr (by decide)
  · exact h3.2.1.mpr (by decide)

/-- Claim C6: for rank-length, in-bounds start and end indices, the slice
operation returns the half-open contiguous range
`data[flat(start) .. flat(end)]` when `flat(start) ≤ flat(end)`, and fails
with `InvalidRange` when `flat(start) > flat(end)`. -/
theorem get_elements_slice_spec {α : Type} (a : StaticArray α)
    (start_index end_index : List Nat) (hWF : Wf a)
    (hs : start_index.length = a.shape.length) (he : end_index.length = a.shape.length)
    (hbs : idxLt start_index a.shape = true) (hbe : idxLt end_index a.shape = true) :
    (_calculate_flat_index a.shape start_index ≤ _calculate_flat_index a.shape end_index →
      get_elements_slice a start_index end_index =
        .ok ((a.data.drop (_calculate_flat_index a.shape start_index)).take
          (_calculate_flat_index a.shape end_index
            - _calculate_flat_index a.shape start_index))) ∧
    (_calculate_flat_index a.shape end_index < _calculate_flat_index a.shape start_index →
      get_elements_slice a start_index end_index = .error Err.invalidRange) := by
  constructor
  · intro hle
    have hdlen : a.data.length = a.shape.prod := by rw [hWF.2, hWF.1]
    have hfe : _calculate_flat_index a.shape end_index + 1 ≤ a.shape.prod :=
      flat_index_lt end_index a.shape he hbe
    have hguard : _calculate_flat_index a.shape end_index ≤ a.data.length := by omega
    unfold get_elements_slice _check_end_index_greater_than_start_index
    rw [check_index_within_bounds_eq, check_index_within_bounds_eq]
    simp [hle, hs, he, hbs, hbe, hguard]
  · intro hlt
    have hnle : ¬ _calculate_flat_index a.shape start_index
        ≤ _calculate_flat_index a.shape end_index := by omega
    unfold get_elements_slice _check_end_index_greater_than_start_index
    simp [hnle]

/-- Witness for C6 on the `[2,3]` array `[1..6]`: the source test
`get_elements_slice([0,1], [1,0]) == [2,3]` and the reversed pair failing with
`InvalidRange`. -/
theorem get_elements_slice_spec_witness :
    Wf exArr23 ∧
    get_elements_slice exArr23 [0, 1] [1, 0] = .ok [2, 3] ∧
    get_elements_slice exArr23 [1, 0] [0, 1] = .error Err.invalidRange := by
  have h1 := get_elements_slice_spec exArr23 [0, 1] [1, 0] (by decide)
    (by decide) (by decide) (by decide) (by decide)
  have h2 := get_elements_slice_spec exArr23 [1, 0] [0, 1] (by decide)
    (by decide) (by decide) (by decide) (by decide)
  exact ⟨by decide, (h1.1 (by decide)).trans rfl, h2.2 (by decide)⟩

/-- Claim C7: every array produced or mutated by the public operations
(`zeros`, `ones`, `fill`, `from_data`, `reshape`, `get_subarray`, `get_view`,
`set` through the mutable index operator) satisfies
`capacity == product(shape)` and `data.length == capacity`; operations that
would break the invariant fail (returning the unchanged state or an error)
rather than producing an inconsistent array. -/
theorem wf_invariants :
    (∀ (α : Type) (v : α) (shape : List Nat), Wf (_new_array_with_value v shape)) ∧
    (∀ (α : Type) (z : Zero α) (shape : List Nat), Wf (@new_zeros α z shape)) ∧
    (∀ (α : Type) (o : One α) (shape : List Nat), Wf (@new_ones α o shape)) ∧
    (∀ (α : Type) (shape : List Nat) (v : α), Wf (new_fill shape v)) ∧
    (∀ (α : Type) (values : List α) (oshape : Option (List Nat)) (b : StaticArray α),
      new_from_array values oshape = .ok b → Wf b) ∧
    (∀ (α : Type) (a : StaticArray α) (ns : List Nat), Wf a → Wf (reshape a ns).1) ∧
    (∀ (α : Type) (a : StaticArray α) (idx : List Nat) (b : StaticArray α),
      get_subarray a idx = .ok b → Wf b) ∧
    (∀ (α : Type) (a : StaticArray α) (ns : List Nat) (b : StaticArray α),
      Wf a → get_view a ns = .ok b → Wf b) ∧
    (∀ (α : Type) (a : StaticArray α) (idx : List Nat) (v : α),
      Wf a → Wf (index_mut_set a idx v).1) := by
  have hnew : ∀ (α : Type) (v : α) (shape : List Nat), Wf (_new_array_with_value v shape) := by
    intro α v shape
    exact ⟨rfl, by simp [_new_array_with_value]⟩
  refine ⟨hnew, fun α z shape => hnew α 0 shape, fun α o shape => hnew α 1 shape,
    fun α shape v => hnew α v shape, ?_, ?_, ?_, ?_, ?_⟩
  · intro α values oshape b hb
    unfold new_from_array _check_shape_capacity_match at hb
    by_cases h : (oshape.getD [values.length]).prod = values.length
    · simp [h] at hb
      exact hb ▸ ⟨h.symm, rfl⟩
    · simp [h] at hb
  · intro α a ns hWF
    unfold reshape
    by_cases h : ns.prod = a.capacity
    · simp [h]
      exact ⟨h.symm, hWF.2⟩
    · simp [h]
      exact hWF
  · intro α a idx b hb
    unfold get_subarray at hb
    by_cases h1 : a.shape.length < idx.length
    · simp [h1] at hb
    · by_cases h2 : idx.length = a.shape.length
      · simp [h1, h2] at hb
      · by_cases h3 : zipStrideSum idx (_calculate_strides a.shape)
            + (a.shape.drop idx.length).prod ≤ a.data.length
        · simp [h1, h2, h3] at hb
          refine hb ▸ ⟨rfl, ?_⟩
          simp [List.length_take, List.length_drop]
          omega
        · simp [h1, h2, h3] at hb
  · intro α a ns b hWF hb
    unfold get_view _check_shape_capacity_match at hb
    by_cases h : ns.prod = a.capacity
    · simp [h] at hb
      exact hb ▸ ⟨h.symm, hWF.2⟩
    · simp [h] at hb
  · intro α a idx v hWF
    unfold index_mut_set
    cases hc : _check_index_within_bounds a idx with
    | error e => simpa using hWF
    | ok r =>
      by_cases hf : _calculate_flat_index a.shape idx < a.data.length
      · simp [hf]
        exact ⟨hWF.1, by simpa using hWF.2⟩
      · simpa [hf] using hWF

/-- Witness for C7: constructing `zeros([2,2])`, reshaping it to `[4]` and
writing through the mutable index operator all yield well-formed arrays. -/
theorem wf_invariants_witness :
    Wf (new_zeros [2, 2] : StaticArray Nat) ∧
    Wf (reshape (new_zeros [2, 2] : StaticArray Nat) [4]).1 ∧
    Wf (index_mut_set (new_zeros [2, 2] : StaticArray Nat) [0, 0] 7).1 := by
  refine ⟨wf_invariants.2.1 Nat _ [2, 2], ?_, ?_⟩
  · exact wf_invariants.2.2.2.2.2.1 Nat (new_zeros [2, 2]) [4] (by decide)
  · exact wf_invariants.2.2.2.2.2.2.2.2 Nat (new_zeros [2, 2]) [0, 0] 7 (by decide)

/-- Claim C9: in `get_elements_slice` the `InvalidRange` comparison of flat
offsets runs before either multi-index is bounds-checked: on the `[2,3]` array
with start `[1,5]` (component `5` out of its bound `3`) and end `[0,0]`, the
call fails with `InvalidRange`, not `IndexOutOfBounds`. -/
theorem slice_range_check_precedes_bounds_check :
    get_elements_slice exArr23 [1, 5] [0, 0] = .error Err.invalidRange ∧
    idxLt [1, 5] exArr23.shape = false ∧
    _calculate_flat_index exArr23.shape [0, 0] < _calculate_flat_index exArr23.shape [1, 5] ∧
    Err.invalidRange ≠ Err.indexOutOfBounds :=
  ⟨rfl, by decide, by decide, by decide⟩

/-- Claim C10: `get_subarray` never bounds-checks the components of a
valid-length prefix: on the `[2,3]` array with prefix `[2]` (component `2` at
or above its bound `2`), the out-of-range flat range `6..9` is passed to the
underlying buffer slice (here: the Rust slice panic, modelled `slicePanic`),
not the taxonomy's `IndexOutOfBounds` error. -/
theorem subarray_no_prefix_bounds_check :
    get_subarray exArr23 [2] = .error Err.slicePanic ∧
    ([2] : List Nat).length < exArr23.shape.length ∧
    exArr23.shape.getD 0 0 ≤ ([2] : List Nat).getD 0 0 ∧
    Err.slicePanic ≠ Err.indexOutOfBounds :=
  ⟨rfl, by decide, by decide, by decide⟩

example : _calculate_strides [2, 3] = [3, 1] := by decide
example : _calculate_strides [2, 3, 5] = [15, 5, 1] := by decide
example : _calculate_strides [2] = [1] := by decide
example : _calculate_flat_index [2, 3] [1, 1] = 4 := by decide
example : _calculate_flat_index [2, 3] [1, 2] = 5 := by decide
example :
    get_subarray (⟨8, [1, 2, 3, 4, 5, 6, 7, 8], [2, 2, 2]⟩ : StaticArray Nat) [1] =
      .ok ⟨4, [5, 6, 7, 8], [2, 2]⟩ := rfl
example :
    get_subarray (⟨8, [1, 2, 3, 4, 5, 6, 7, 8], [2, 2, 2]⟩ : StaticArray Nat) [1, 1] =
      .ok ⟨2, [7, 8], [2]⟩ := rfl
example :
    get_elements_slice (⟨6, [1, 2, 3, 4, 5, 6], [2, 3]⟩ : StaticArray Nat) [0, 1] [1, 0] =
      .ok [2, 3] := rfl
example :
    get_elements_slice (⟨6, [1, 2, 3, 4, 5, 6], [2, 3]⟩ : StaticArray Nat) [0, 0] [1, 1] =
      .ok [1, 2, 3, 4] := rfl
example :
    get_element_at (⟨6, [1, 2, 3, 4, 5, 6], [2, 3]⟩ : StaticArray Nat) [1, 2] = .ok 6 := rfl

end Numeru
